import Mathlib

/-!
# HackRF-Watchdog: verification of the Detection & Alerting Engine

A shallow embedding of the engine-relevant code of the HackRF-Watchdog
repository, together with theorems settling the frozen claims about it.

Embedded code:
* `SweepWorker._handle_frame` (src/main.py, lines 314-443): calibration,
  noise-floor estimation, the per-frequency hysteresis/hold-time state
  machine, and the stale-state reaper.
* `AtakBridge` (src/hackrf_watchdog/atak_bridge.py): identity resolution,
  remarks composition, per-identity rate limiting, and the UDP transport
  with its error handling.

Modelling conventions:
* Python floats are modelled as exact rationals (`ℚ`); timestamps are
  rationals as well.
* Python dicts used as finite maps (`_hold_state`, `_last_sent_by_key`)
  are modelled as association lists with unique keys; `d[k] = v` is
  replace-or-append, preserving insertion order like a Python dict.
* Qt signal emissions are modelled as returned values (the emitted noise
  floor, the emitted detection list, the emitted status events).
* The fallible externals of the transport (socket creation, `sendto`,
  local-IP auto-detection) are modelled by an explicit outcome record
  (`NetEnv`); a Python exception escaping the `try` block is an
  `Except.error`.
* The per-sweep "Max: ..." log line (src/main.py lines 401-440) only
  formats log text and never touches engine state; it is not modelled.
-/

set_option maxRecDepth 10000

namespace HackRFWatchdog

/-! ## Numeric helpers

Python's `round` and `%.Nf` string formatting both round half to even
(IEEE-754 `double` semantics). On exact rationals this is the function
below. -/

/-- Round half to even, the rounding used by Python's `round` and by
`%.Nf` formatting. -/
def roundHalfEven (x : ℚ) : ℤ :=
  let f := ⌊x⌋
  let r := x - f
  if r < 1/2 then f
  else if 1/2 < r then f + 1
  else if f % 2 = 0 then f else f + 1

/-- Python `round(x, 6)`, the quantization producing hold-state keys
(src/main.py line 369). -/
def round6 (x : ℚ) : ℚ := (roundHalfEven (1000000 * x) : ℚ) / 1000000

/-- Python `statistics.median`: sort; middle element for odd length,
mean of the two middle elements for even length. -/
def median (xs : List ℚ) : ℚ :=
  let s := xs.mergeSort (fun a b => a ≤ b)
  let n := s.length
  if n % 2 = 1 then s.getD (n / 2) 0
  else (s.getD (n / 2 - 1) 0 + s.getD (n / 2) 0) / 2

/-! ## Data model -/

/-- A sweep frame as yielded by `iter_sweep_frames`
(src/hackrf_watchdog/sweep_backend.py lines 97-103); the `timestamp_s`
and `high_hz` fields are never read by `_handle_frame` and are omitted. -/
structure Frame where
  low_hz : ℚ
  bin_width_hz : ℚ
  powers_dbm : List ℚ
deriving DecidableEq

/-- One detection dict as appended in src/main.py lines 383-394. -/
structure Detection where
  freq_mhz : ℚ
  freq_mhz_raw : ℚ
  power_dbm : ℚ
  power_dbm_raw : ℚ
  cal_offset_db : ℚ
  freq_ppm : ℚ
  timestamp : ℚ
  band : String
deriving DecidableEq

/-- One `_hold_state` entry (src/main.py line 241: `freq key ->
{"first_seen": float|None, "last_seen": float|None, "above": bool}`).
Every write site stores a number in `last_seen`, so it is modelled as a
plain rational. -/
structure HoldSt where
  first_seen : Option ℚ
  last_seen : ℚ
  above : Bool
deriving DecidableEq

/-- The `_hold_state` dict: an insertion-ordered map from quantized
frequency keys to hold entries. -/
abbrev HoldMap := List (ℚ × HoldSt)

/-- The mutable engine state of `SweepWorker` read and written by
`_handle_frame`: `_noise_floor` and `_hold_state`. -/
structure EngineState where
  noise_floor : Option ℚ
  hold_state : HoldMap
deriving DecidableEq

/-- The `SweepWorker` configuration fields consumed by `_handle_frame`. -/
structure WorkerCfg where
  threshold_db : ℚ
  use_local_noise_floor : Bool
  min_hold_time_s : ℚ
  cal_gain_db : ℚ
  cal_loss_db : ℚ
  freq_ppm : ℚ
deriving DecidableEq

/-! ## Association-list map operations (Python dict semantics) -/

/-- `dict.get` on an association list. -/
def holdLookup : HoldMap → ℚ → Option HoldSt
  | [], _ => none
  | (k', v) :: rest, k => if k' = k then some v else holdLookup rest k

/-- `dict[k] = v`: replace in place if the key is present, else append. -/
def holdInsert : HoldMap → ℚ → HoldSt → HoldMap
  | [], k, v => [(k, v)]
  | (k', v') :: rest, k, v =>
    if k' = k then (k, v) :: rest else (k', v') :: holdInsert rest k v

/-! ## `_handle_frame` (src/main.py lines 314-443) -/

/-- `SweepWorker._net_cal_offset_db` (line 306). -/
def netCalOffsetDb (cfg : WorkerCfg) : ℚ := cfg.cal_gain_db - cfg.cal_loss_db

/-- `SweepWorker._freq_factor` (line 309): `1 + ppm/1e6`. -/
def freqFactor (cfg : WorkerCfg) : ℚ := 1 + cfg.freq_ppm / 1000000

/-- Noise-floor candidate selection (lines 323-328): sort the calibrated
powers ascending; with more than 10 samples take the lowest
`int(n * 0.8)` of them (for the sample counts reachable here the float
product `n * 0.8` truncates to `⌊4n/5⌋`), else take all. -/
def noiseCandidates (powers : List ℚ) : List ℚ :=
  let sorted_p := powers.mergeSort (fun a b => a ≤ b)
  if sorted_p.length > 10 then sorted_p.take (4 * sorted_p.length / 5)
  else sorted_p

/-- Noise-floor update (lines 329-335): first frame takes the trimmed
median; later frames apply `(1 - alpha) * floor + alpha * median` with
`alpha = 0.1`. -/
def updatedNoiseFloor (cfg : WorkerCfg) (prev : Option ℚ) (frame : Frame) : ℚ :=
  let powers := frame.powers_dbm.map (fun p => p + netCalOffsetDb cfg)
  let median_noise := median (noiseCandidates powers)
  match prev with
  | none => median_noise
  | some f => (1 - 1/10) * f + 1/10 * median_noise

/-- Effective threshold (lines 340-343), computed from the *updated*
noise floor. -/
def effectiveThreshold (cfg : WorkerCfg) (prev : Option ℚ) (frame : Frame) : ℚ :=
  if cfg.use_local_noise_floor then updatedNoiseFloor cfg prev frame + cfg.threshold_db
  else cfg.threshold_db

/-- The per-frame constants consulted by the bin loop (lines 345-357). -/
structure BinCtx where
  powers_raw : List ℚ
  cal_offset : ℚ
  abs_threshold : ℚ
  low_hz : ℚ
  bin_w : ℚ
  f_factor : ℚ
  now : ℚ
  hold : ℚ
  freq_ppm : ℚ
  band : String
deriving DecidableEq

/-- Assemble the bin-loop context for a frame. -/
def frameCtx (cfg : WorkerCfg) (band : String) (now : ℚ) (s : EngineState)
    (frame : Frame) : BinCtx :=
  { powers_raw := frame.powers_dbm
    cal_offset := netCalOffsetDb cfg
    abs_threshold := effectiveThreshold cfg s.noise_floor frame
    low_hz := frame.low_hz
    bin_w := frame.bin_width_hz
    f_factor := freqFactor cfg
    now := now
    hold := cfg.min_hold_time_s
    freq_ppm := cfg.freq_ppm
    band := band }

/-- Raw bin center in Hz (line 363): `low_hz + (idx + 0.5) * bin_w`. -/
def centerHzRaw (c : BinCtx) (idx : ℕ) : ℚ := c.low_hz + ((idx : ℚ) + 1/2) * c.bin_w

/-- Calibrated bin center in MHz (lines 364, 367). -/
def freqMhzOf (c : BinCtx) (idx : ℕ) : ℚ := centerHzRaw c idx * c.f_factor / 1000000

/-- Hold-state key of a bin (line 369): `round(freq_mhz, 6)`. -/
def keyOf (c : BinCtx) (idx : ℕ) : ℚ := round6 (freqMhzOf c idx)

/-- Calibrated power of a bin (lines 320, 360): `powers_raw[idx] + cal_offset`. -/
def pCal (c : BinCtx) (idx : ℕ) : ℚ := c.powers_raw.getD idx 0 + c.cal_offset

/-- The detection dict appended for a qualifying bin (lines 383-394). -/
def mkDetection (c : BinCtx) (idx : ℕ) : Detection :=
  { freq_mhz := freqMhzOf c idx
    freq_mhz_raw := centerHzRaw c idx / 1000000
    power_dbm := pCal c idx
    power_dbm_raw := c.powers_raw.getD idx 0
    cal_offset_db := c.cal_offset
    freq_ppm := c.freq_ppm
    timestamp := c.now
    band := c.band }

/-- The body of `for idx in range(n_bins)` (lines 359-399): threshold
comparison, hold-state transition, and optional detection emission.
`p_cal >= abs_threshold` is written `abs_threshold ≤ pCal`, and
`dwell >= hold` is written `hold ≤ dwell`. -/
def binStep (c : BinCtx) (m : HoldMap) (idx : ℕ) : HoldMap × Option Detection :=
  let key := keyOf c idx
  let st? := holdLookup m key
  if c.abs_threshold ≤ pCal c idx then
    let st : HoldSt :=
      match st? with
      | some st =>
        if st.above then { st with last_seen := c.now, above := true }
        else { first_seen := some c.now, last_seen := c.now, above := true }
      | none => { first_seen := some c.now, last_seen := c.now, above := true }
    let m' := holdInsert m key st
    let dwell : ℚ := match st.first_seen with | none => 0 | some fs => c.now - fs
    if c.hold ≤ 0 ∨ c.hold ≤ dwell then (m', some (mkDetection c idx))
    else (m', none)
  else
    match st? with
    | some st =>
      if st.above then
        (holdInsert m key { first_seen := none, last_seen := c.now, above := false }, none)
      else (m, none)
    | none => (m, none)

/-- The bin loop over a list of indices, accumulating the detections in
order. -/
def binLoop (c : BinCtx) : HoldMap → List ℕ → HoldMap × List Detection
  | m, [] => (m, [])
  | m, idx :: rest =>
    let r := binStep c m idx
    let rs := binLoop c r.1 rest
    (rs.1, r.2.toList ++ rs.2)

/-- The stale-state reaper (lines 408-416): drop every entry whose
`last_seen` age strictly exceeds `max(hold * 2, 10)`. The source
collects the stale keys and then deletes them from the dict; on a map
with unique keys this is exactly a filter. -/
def reapHoldState (now hold : ℚ) (m : HoldMap) : HoldMap :=
  m.filter (fun kv => !decide (max (hold * 2) 10 < now - kv.2.last_seen))

/-- The outcome of one `_handle_frame` call: the updated engine state,
the detections emitted via `detections_found`, and the noise floor
emitted via `noise_floor_updated` (`none` when the frame was skipped). -/
structure HandleResult where
  state : EngineState
  detections : List Detection
  noise_emitted : Option ℚ
deriving DecidableEq

/-- `SweepWorker._handle_frame` (lines 314-443): skip empty frames, update
the noise floor, run the hysteresis loop over all bins, then reap stale
hold state. -/
def handleFrame (cfg : WorkerCfg) (band : String) (now : ℚ) (s : EngineState)
    (frame : Frame) : HandleResult :=
  if frame.powers_dbm = [] then { state := s, detections := [], noise_emitted := none }
  else
    let nf := updatedNoiseFloor cfg s.noise_floor frame
    let c := frameCtx cfg band now s frame
    let r := binLoop c s.hold_state (List.range frame.powers_dbm.length)
    { state := { noise_floor := some nf
                 hold_state := reapHoldState now cfg.min_hold_time_s r.1 }
      detections := r.2
      noise_emitted := some nf }

/-- Dwell-clock origin of a bin given the map state at the moment the bin
is processed: the stored `first_seen` of a continuing above-threshold
run, and the current time otherwise (a run starting this frame). -/
def runStartOf (c : BinCtx) (m : HoldMap) (idx : ℕ) : ℚ :=
  match holdLookup m (keyOf c idx) with
  | some st => if st.above then st.first_seen.getD c.now else c.now
  | none => c.now

/-- The noise-floor candidate set as the specification words it (§4.2):
sort ascending; with more than 10 samples keep the lowest `floor(0.8*n)`
by count, else keep all samples. -/
def specNoiseCandidates (calPowers : List ℚ) : List ℚ :=
  let n := calPowers.length
  let sorted := calPowers.mergeSort (fun a b => a ≤ b)
  if n > 10 then sorted.take (4 * n / 5) else sorted

/-- The noise-floor update rule as the specification words it (§4.2 /
§8): the first frame initializes the estimate to the trimmed median;
every later frame applies `0.9 * floor_prev + 0.1 * median_new`. -/
def specNoiseFloor (prev : Option ℚ) (calPowers : List ℚ) : ℚ :=
  let med := median (specNoiseCandidates calPowers)
  match prev with
  | none => med
  | some f => 9/10 * f + 1/10 * med

/-! ## Decimal rendering (Python `%.Nf` formatting)

`f"{x:.Nf}"` rounds half to even at `N` decimals and renders the result
in decimal. `natDigits` is fuel-indexed so that the kernel can evaluate
it on concrete inputs. -/

/-- ASCII digit character for `d < 10`. -/
def digitChar (d : ℕ) : Char := Char.ofNat (48 + d)

/-- Decimal digits of `n`, most significant first; `fuel` bounds the
recursion depth. -/
def natDigitsAux : ℕ → ℕ → List Char
  | 0, _ => []
  | fuel + 1, n =>
    if n < 10 then [digitChar n]
    else natDigitsAux fuel (n / 10) ++ [digitChar (n % 10)]

/-- Decimal digits of `n`, most significant first. -/
def natDigits (n : ℕ) : List Char := natDigitsAux (n + 1) n

/-- Exactly three digits with leading zeros (used for `r < 1000`). -/
def pad3 (r : ℕ) : List Char :=
  [digitChar (r / 100 % 10), digitChar (r / 10 % 10), digitChar (r % 10)]

/-- Digit string `q.rrr` of a value already scaled to thousandths. -/
def milliChars (n : ℕ) : List Char := natDigits (n / 1000) ++ '.' :: pad3 (n % 1000)

/-- Python `f"{x:.3f}"` on exact rationals. (Python renders a float that
rounds to negative zero as `-0.000`; that corner never occurs here since
every use is on a positive frequency.) -/
def formatFixed3 (x : ℚ) : String :=
  let n := roundHalfEven (1000 * x)
  if n < 0 then ⟨'-' :: milliChars (-n).toNat⟩ else ⟨milliChars n.toNat⟩

/-- Digit string `q.r` of a value already scaled to tenths. -/
def deciChars (n : ℕ) : List Char := natDigits (n / 10) ++ ['.', digitChar (n % 10)]

/-- Python `f"{x:.1f}"` on exact rationals. -/
def formatFixed1 (x : ℚ) : String :=
  let n := roundHalfEven (10 * x)
  if n < 0 then ⟨'-' :: deciChars (-n).toNat⟩ else ⟨deciChars n.toNat⟩

/-- Python `f"{x:+.1f}"`: `formatFixed1` with a forced leading sign. -/
def formatSigned1 (x : ℚ) : String :=
  let n := roundHalfEven (10 * x)
  if n < 0 then formatFixed1 x else "+" ++ formatFixed1 x

/-! ## `AtakBridge` (src/hackrf_watchdog/atak_bridge.py) -/

/-- The `AtakBridgeConfig` fields (lines 20-43) the bridge logic modelled
here consumes; `lat`, `lon`, `cot_type`, `stale_seconds` and the group
fields only shape XML text and are omitted. The source field
`callsign_prefix` is named `callsign_pre` in this embedding. -/
structure AtakCfg where
  enabled : Bool
  host : String
  port : ℕ
  multicast_ttl : ℕ
  bind_local_ip : String
  use_per_frequency_uid : Bool
  callsign_pre : String
  static_callsign : String
  static_uid : String
deriving DecidableEq

/-- `AtakBridge.preview_identity` (lines 239-247): in per-frequency mode
with a positive frequency, callsign and uid are both
`prefix + f"{fmhz:.3f}" + "MHz"`; otherwise the static pair. -/
def preview_identity (cfg : AtakCfg) (sample_freq_mhz : ℚ) : String × String :=
  if cfg.use_per_frequency_uid = true ∧ 0 < sample_freq_mhz then
    let callsign := cfg.callsign_pre ++ formatFixed3 sample_freq_mhz ++ "MHz"
    (callsign, callsign)
  else (cfg.static_callsign, cfg.static_uid)

/-- The detection dict as read by `AtakBridge.send_detection`: every
`det.get(...)` is an optional field. The `center_freq_hz`-style fallback
keys of `_extract_freq_mhz` (lines 230-237) are never produced by this
repository's detection sources and are not modelled. -/
structure DetDict where
  freq_mhz : Option ℚ
  power_dbm : Option ℚ
  cal_offset_db : Option ℚ
  power_dbm_raw : Option ℚ
  freq_ppm : Option ℚ
  band : String
deriving DecidableEq

/-- `AtakBridge._extract_freq_mhz` (lines 223-237) restricted to the
`freq_mhz` key. -/
def extractFreqMhz (det : DetDict) : ℚ := det.freq_mhz.getD 0

/-- One `parts` entry of `send_detection` (lines 275-325), tagged by the
field it carries; `renderRemark` gives the exact text appended. -/
inductive RemarkField where
  | freq (fmhz : ℚ)
  | power (p : ℚ)
  | calOffset (c : ℚ)
  | raw (r : ℚ)
  | ppm (v : ℚ)
  | noiseFloor (nf : ℚ)
  | aboveNoise (m : ℚ)
  | band (s : String)
deriving DecidableEq

/-- Lines 276-277: the frequency part, present when the extracted
frequency is positive. -/
def freqPart (det : DetDict) : List RemarkField :=
  if 0 < extractFreqMhz det then [.freq (extractFreqMhz det)] else []

/-- Lines 279-284: the power part, present when `power_dbm` is given. -/
def powerPart (det : DetDict) : List RemarkField :=
  match det.power_dbm with
  | some p => [.power p]
  | none => []

/-- Lines 286-294: the calibration-offset part, gated at
`|cal_offset| ≥ 0.05`. -/
def calPart (det : DetDict) : List RemarkField :=
  match det.cal_offset_db with
  | some c => if 1/20 ≤ |c| then [.calOffset c] else []
  | none => []

/-- Lines 296-303: the raw-power part, gated at `|raw - power| ≥ 0.05`. -/
def rawPart (det : DetDict) : List RemarkField :=
  match det.power_dbm_raw, det.power_dbm with
  | some r, some p => if 1/20 ≤ |r - p| then [.raw r] else []
  | _, _ => []

/-- Lines 305-312: the ppm part, gated at `|ppm| ≥ 0.05`. -/
def ppmPart (det : DetDict) : List RemarkField :=
  match det.freq_ppm with
  | some v => if 1/20 ≤ |v| then [.ppm v] else []
  | none => []

/-- Lines 314-321: noise floor and above-noise margin, appended together
whenever a noise floor and a power are present — with no significance
gate. -/
def noisePart (det : DetDict) (noise_floor : Option ℚ) : List RemarkField :=
  match noise_floor, det.power_dbm with
  | some nf, some p => [.noiseFloor nf, .aboveNoise (p - nf)]
  | _, _ => []

/-- Lines 323-325: the band label, when non-empty. -/
def bandPart (det : DetDict) : List RemarkField :=
  if det.band ≠ "" then [.band det.band] else []

/-- The remark parts `send_detection` assembles (lines 275-325), as the
in-order concatenation of the conditional appends the source performs:
the `0.05` significance gates guard only the calibration offset, the raw
power (via `|raw - power|`) and the ppm correction; the noise floor and
above-noise margin are appended whenever a noise floor and a power are
present, and the band label whenever it is non-empty. `0.05` is `1/20`. -/
def remarkParts (det : DetDict) (noise_floor : Option ℚ) : List RemarkField :=
  freqPart det ++ powerPart det ++ calPart det ++ rawPart det ++ ppmPart det
    ++ noisePart det noise_floor ++ bandPart det

/-- The exact text of each remark part (lines 277-325). -/
def renderRemark : RemarkField → String
  | .freq f => "Freq: " ++ formatFixed3 f ++ " MHz"
  | .power p => "Power: " ++ formatFixed1 p ++ " dB"
  | .calOffset c => "Cal offset: " ++ formatSigned1 c ++ " dB"
  | .raw r => "Raw: " ++ formatFixed1 r ++ " dB"
  | .ppm v => "PPM: " ++ formatSigned1 v
  | .noiseFloor v => "Noise floor: " ++ formatFixed1 v ++ " dB"
  | .aboveNoise m => "Above noise: " ++ formatFixed1 m ++ " dB"
  | .band s => "Band: " ++ s

/-- An open UDP socket as far as the model needs it: which multicast
options were applied when it was created (lines 159-176). -/
structure Sock where
  ttl : Option ℕ
  mcast_if : Option String
deriving DecidableEq

/-- Mutable `AtakBridge` state: `_sock`, `_last_sent_by_key`,
`_auto_local_ip_cache` (lines 101-106). -/
structure BridgeState where
  sock : Option Sock
  last_sent_by_key : List (String × ℚ)
  auto_ip_cache : Option String
deriving DecidableEq

/-- Outcomes of the fallible externals one send attempt may touch:
whether `socket.socket(...)` succeeds, whether `s.sendto(...)` succeeds,
and what `detect_preferred_local_ipv4()` returns when invoked. -/
structure NetEnv where
  create_ok : Bool
  sendto_ok : Bool
  auto_ip : Option String
deriving DecidableEq

/-- `AtakBridge._is_multicast_host` (lines 131-136):
`ipaddress.ip_address(host).is_multicast` for dotted-quad IPv4; a
non-parsing host yields `False`. -/
def isMulticastHost (host : String) : Bool :=
  match (host.splitOn ".").map (fun p => p.toNat?) with
  | [some a, some b, some c, some d] =>
    decide (a ≤ 255 ∧ b ≤ 255 ∧ c ≤ 255 ∧ d ≤ 255 ∧ 224 ≤ a ∧ a ≤ 239)
  | _ => false

/-- `AtakBridge.resolve_local_ip_for_send` (lines 138-153): the
configured bind IP when non-empty, else the cached auto-detected IP,
else run auto-detection and cache its result. -/
def resolveLocalIp (cfg : AtakCfg) (env : NetEnv) (st : BridgeState) :
    Option String × BridgeState :=
  if cfg.bind_local_ip ≠ "" then (some cfg.bind_local_ip, st)
  else
    match st.auto_ip_cache with
    | some ip => (some ip, st)
    | none => (env.auto_ip, { st with auto_ip_cache := env.auto_ip })

/-- `AtakBridge._get_socket` (lines 155-177): reuse `_sock` when present,
else create a socket and, for a multicast destination, apply TTL and the
outbound interface. Failure of the `socket.socket` call is the only
exception that can escape (the `setsockopt` calls are individually
wrapped in `try/except`); in that case `_sock` stays unset. -/
def getSocket (cfg : AtakCfg) (env : NetEnv) (st : BridgeState) :
    Except Unit (Sock × BridgeState) :=
  match st.sock with
  | some s => .ok (s, st)
  | none =>
    if env.create_ok then
      if isMulticastHost cfg.host then
        let r := resolveLocalIp cfg env st
        let s : Sock := ⟨some cfg.multicast_ttl, r.1⟩
        .ok (s, { r.2 with sock := some s })
      else
        let s : Sock := ⟨none, none⟩
        .ok (s, { st with sock := some s })
    else .error ()

/-- A CoT datagram as far as the model needs it: the uid, callsign and
remarks that `_build_cot` embeds (the XML timestamps and coordinates
only shape text). -/
structure CotPayload where
  uid : String
  callsign : String
  remarks : String
deriving DecidableEq

/-- A `status_changed.emit` message, kept structural: the failure variant
carries the destination and the best-known outbound IP exactly as the
source interpolates them into the status text. -/
inductive StatusMsg where
  | sent (label : String) (host : String) (port : ℕ) (via : Option String)
  | sendFailed (host : String) (port : ℕ) (via : Option String)
deriving DecidableEq

/-- An externally observable effect of the transport: a datagram actually
handed to `sendto`, or a status emission. -/
inductive BridgeEvent where
  | datagram (p : CotPayload)
  | status (m : StatusMsg)
deriving DecidableEq

def isDatagram : BridgeEvent → Bool
  | .datagram _ => true
  | .status _ => false

/-- `AtakBridge._send_raw` (lines 208-221): get-or-create the socket,
`sendto`, optionally report success; every exception is caught and
reported as a `Send failed` status carrying the destination and the
best-known outbound IP. The `except` branch does not touch `_sock`. -/
def sendRaw (cfg : AtakCfg) (env : NetEnv) (st : BridgeState) (payload : CotPayload)
    (emit_success : Bool) (label : String) : BridgeState × List BridgeEvent :=
  match getSocket cfg env st with
  | .error _ =>
    let r := resolveLocalIp cfg env st
    (r.2, [.status (.sendFailed cfg.host cfg.port r.1)])
  | .ok (_, st₁) =>
    if env.sendto_ok then
      if emit_success then
        let r := resolveLocalIp cfg env st₁
        (r.2, [.datagram payload, .status (.sent label cfg.host cfg.port r.1)])
      else (st₁, [.datagram payload])
    else
      let r := resolveLocalIp cfg env st₁
      (r.2, [.status (.sendFailed cfg.host cfg.port r.1)])

/-- `dict.get` on `_last_sent_by_key`. -/
def lastLookup : List (String × ℚ) → String → Option ℚ
  | [], _ => none
  | (k', v) :: rest, k => if k' = k then some v else lastLookup rest k

/-- `dict[k] = v` on `_last_sent_by_key`. -/
def lastInsert : List (String × ℚ) → String → ℚ → List (String × ℚ)
  | [], k, v => [(k, v)]
  | (k', v') :: rest, k, v =>
    if k' = k then (k, v) :: rest else (k', v') :: lastInsert rest k v

/-- The rate-limit key of a detection: the uid of its resolved identity
(lines 265-267). -/
def identityKey (cfg : AtakCfg) (det : DetDict) : String :=
  (preview_identity cfg
    (if 0 < extractFreqMhz det then extractFreqMhz det else 0)).2

/-- `AtakBridge.send_detection` (lines 261-331): drop when disabled,
resolve the identity, rate-limit per uid at 1 second (recording the send
time *before* the transmission attempt), assemble the remark parts, and
hand the payload to `_send_raw` with success reporting off. -/
def send_detection (cfg : AtakCfg) (env : NetEnv) (now : ℚ) (st : BridgeState)
    (det : DetDict) (noise_floor : Option ℚ) : BridgeState × List BridgeEvent :=
  if cfg.enabled = false then (st, [])
  else
    let fmhz := extractFreqMhz det
    let ident := preview_identity cfg (if 0 < fmhz then fmhz else 0)
    let key := ident.2
    let last := (lastLookup st.last_sent_by_key key).getD 0
    if now - last < 1 then (st, [])
    else
      let st₁ := { st with last_sent_by_key := lastInsert st.last_sent_by_key key now }
      let parts := remarkParts det noise_floor
      let remarks := if parts = [] then "HackRF-Watchdog detection"
        else String.intercalate " | " (parts.map renderRemark)
      sendRaw cfg env st₁ ⟨ident.2, ident.1, remarks⟩ false ""

/-! ## Map lemmas -/

theorem holdLookup_insert_self (m : HoldMap) (k : ℚ) (v : HoldSt) :
    holdLookup (holdInsert m k v) k = some v := by
  induction m with
  | nil => simp [holdInsert, holdLookup]
  | cons kv rest ih =>
    by_cases h : kv.1 = k
    · simp [holdInsert, holdLookup, h]
    · simp [holdInsert, holdLookup, h, ih]

theorem holdLookup_insert_ne (m : HoldMap) (k k' : ℚ) (v : HoldSt) (h : k ≠ k') :
    holdLookup (holdInsert m k v) k' = holdLookup m k' := by
  induction m with
  | nil => simp [holdInsert, holdLookup, h]
  | cons kv rest ih =>
    by_cases hk : kv.1 = k
    · simp [holdInsert, holdLookup, hk, h]
    · simp only [holdInsert, holdLookup, if_neg hk]
      split <;> simp [ih]

theorem mem_reapHoldState (now hold : ℚ) (m : HoldMap) (kv : ℚ × HoldSt) :
    kv ∈ reapHoldState now hold m ↔
      kv ∈ m ∧ now - kv.2.last_seen ≤ max (hold * 2) 10 := by
  simp [reapHoldState, List.mem_filter, not_lt]

theorem handleFrame_hold_state_eq (cfg : WorkerCfg) (band : String) (now : ℚ)
    (s : EngineState) (frame : Frame) (hne : frame.powers_dbm ≠ []) :
    (handleFrame cfg band now s frame).state.hold_state
      = reapHoldState now cfg.min_hold_time_s
          (binLoop (frameCtx cfg band now s frame) s.hold_state
            (List.range frame.powers_dbm.length)).1 := by
  simp [handleFrame, hne]

/-- C5: after the reaper runs at the end of a frame processed at time
`now`, every entry still in the hold-state map has
`now - last_seen ≤ max(2*hold_time, 10)`, and (for any pre-reap map) an
entry survives the reaper exactly when its age is within that horizon —
so every entry whose age exceeds the horizon has been removed. -/
theorem c5_reaper_eviction_horizon (cfg : WorkerCfg) (band : String) (now : ℚ)
    (s : EngineState) (frame : Frame) (hne : frame.powers_dbm ≠ []) :
    (∀ kv ∈ (handleFrame cfg band now s frame).state.hold_state,
        now - kv.2.last_seen ≤ max (cfg.min_hold_time_s * 2) 10)
    ∧ (∀ (m : HoldMap) (kv : ℚ × HoldSt),
        kv ∈ reapHoldState now cfg.min_hold_time_s m ↔
          kv ∈ m ∧ now - kv.2.last_seen ≤ max (cfg.min_hold_time_s * 2) 10) := by
  refine ⟨?_, fun m kv => mem_reapHoldState _ _ _ _⟩
  intro kv hkv
  rw [handleFrame_hold_state_eq cfg band now s frame hne] at hkv
  exact ((mem_reapHoldState _ _ _ _).1 hkv).2

theorem c5_reaper_eviction_horizon_witness :
    (([(-90 : ℚ)] : List ℚ) ≠ []) ∧
      (∀ kv ∈ (handleFrame ⟨10, true, 0, 0, 0, 0⟩ "A" 100 ⟨none, []⟩
          ⟨900000000, 1000000, [-90]⟩).state.hold_state,
        (100 : ℚ) - kv.2.last_seen ≤ max ((0 : ℚ) * 2) 10) :=
  ⟨by simp,
   (c5_reaper_eviction_horizon ⟨10, true, 0, 0, 0, 0⟩ "A" 100 ⟨none, []⟩
      ⟨900000000, 1000000, [-90]⟩ (by simp)).1⟩

/-- C3: a frame in which a tracked, currently-above-threshold bin falls
below the effective threshold clears `above` and `first_seen` while
setting `last_seen = now`; and on any later re-crossing of the threshold
(entry present with `above = false`) the dwell clock restarts from zero:
`first_seen` becomes the re-crossing time and a detection is emitted at
that step only when `hold_time ≤ 0`. -/
theorem c3_below_threshold_resets_dwell (c : BinCtx) (m : HoldMap) (idx : ℕ)
    (st : HoldSt) (hlk : holdLookup m (keyOf c idx) = some st)
    (habove : st.above = true) (hbelow : pCal c idx < c.abs_threshold) :
    binStep c m idx = (holdInsert m (keyOf c idx) ⟨none, c.now, false⟩, none)
    ∧ holdLookup (binStep c m idx).1 (keyOf c idx) = some ⟨none, c.now, false⟩
    ∧ (∀ (c' : BinCtx) (m' : HoldMap) (j : ℕ) (st' : HoldSt),
        holdLookup m' (keyOf c' j) = some st' → st'.above = false →
        c'.abs_threshold ≤ pCal c' j →
        holdLookup (binStep c' m' j).1 (keyOf c' j)
          = some ⟨some c'.now, c'.now, true⟩
        ∧ ((binStep c' m' j).2.isSome ↔ c'.hold ≤ 0)) := by
  have hstep : binStep c m idx
      = (holdInsert m (keyOf c idx) ⟨none, c.now, false⟩, none) := by
    simp [binStep, hlk, habove, not_le.2 hbelow]
  refine ⟨hstep, by rw [hstep]; exact holdLookup_insert_self _ _ _, ?_⟩
  intro c' m' j st' hlk' hnot habove'
  have hstep' : binStep c' m' j
      = (holdInsert m' (keyOf c' j) ⟨some c'.now, c'.now, true⟩,
         if c'.hold ≤ 0 then some (mkDetection c' j) else none) := by
    simp [binStep, hlk', hnot, habove', sub_self]
    split <;> rfl
  rw [hstep']
  refine ⟨holdLookup_insert_self _ _ _, ?_⟩
  split <;> simp_all

/-! ## Bin-loop lemmas for the hysteresis claims -/

theorem binLoop_append (c : BinCtx) (m : HoldMap) (l₁ l₂ : List ℕ) :
    binLoop c m (l₁ ++ l₂)
      = ((binLoop c (binLoop c m l₁).1 l₂).1,
         (binLoop c m l₁).2 ++ (binLoop c (binLoop c m l₁).1 l₂).2) := by
  induction l₁ generalizing m with
  | nil => simp [binLoop]
  | cons idx rest ih => simp [binLoop, ih]

theorem binStep_det_freq (c : BinCtx) (m : HoldMap) (idx : ℕ) (d : Detection)
    (h : (binStep c m idx).2 = some d) : d.freq_mhz = freqMhzOf c idx := by
  unfold binStep at h
  dsimp only at h
  split at h
  · split at h
    · simp only [Option.some_inj] at h
      rw [← h]
      rfl
    · simp at h
  · split at h
    · split at h <;> simp at h
    · simp at h

theorem binLoop_dets_freq (c : BinCtx) (m : HoldMap) (l : List ℕ) (d : Detection)
    (h : d ∈ (binLoop c m l).2) : ∃ idx ∈ l, d.freq_mhz = freqMhzOf c idx := by
  induction l generalizing m with
  | nil => simp [binLoop] at h
  | cons idx rest ih =>
    simp only [binLoop, List.mem_append] at h
    rcases h with h | h
    · rcases Option.mem_toList.1 h with h'
      exact ⟨idx, by simp, binStep_det_freq c m idx d h'⟩
    · obtain ⟨j, hj, hf⟩ := ih _ h
      exact ⟨j, by simp [hj], hf⟩

theorem freqMhzOf_inj (c : BinCtx) (hbw : 0 < c.bin_w) (hff : 0 < c.f_factor)
    {i j : ℕ} (h : freqMhzOf c i = freqMhzOf c j) : i = j := by
  unfold freqMhzOf centerHzRaw at h
  have h6 : (1000000 : ℚ) ≠ 0 := by norm_num
  rw [div_eq_div_iff h6 h6] at h
  have hf : c.f_factor ≠ 0 := ne_of_gt hff
  have h1 : c.low_hz + ((i : ℚ) + 1/2) * c.bin_w
      = c.low_hz + ((j : ℚ) + 1/2) * c.bin_w := by
    have := mul_right_cancel₀ h6 h
    exact mul_right_cancel₀ hf this
  have h2 : ((i : ℚ) + 1/2) * c.bin_w = ((j : ℚ) + 1/2) * c.bin_w :=
    add_left_cancel h1
  have h3 : ((i : ℚ) + 1/2) = ((j : ℚ) + 1/2) :=
    mul_right_cancel₀ (ne_of_gt hbw) h2
  have h4 : (i : ℚ) = j := by linarith
  exact_mod_cast h4

/-- The above-threshold step in one statement: a detection is emitted
exactly when `hold ≤ 0` or the dwell `now - runStart` has reached the
hold time, and the updated entry marks the bin above with
`last_seen = now` and `first_seen` at the run start. -/
theorem binStep_above_emits (c : BinCtx) (m : HoldMap) (idx : ℕ)
    (habove : c.abs_threshold ≤ pCal c idx) :
    ((binStep c m idx).2
      = if c.hold ≤ 0 ∨ c.hold ≤ c.now - runStartOf c m idx
        then some (mkDetection c idx) else none)
    ∧ (∃ st', holdLookup (binStep c m idx).1 (keyOf c idx) = some st'
        ∧ st'.above = true ∧ st'.last_seen = c.now
        ∧ st'.first_seen.getD c.now = runStartOf c m idx) := by
  have key : ∃ st', binStep c m idx
      = (holdInsert m (keyOf c idx) st',
         if c.hold ≤ 0 ∨ c.hold ≤ c.now - runStartOf c m idx
         then some (mkDetection c idx) else none)
      ∧ st'.above = true ∧ st'.last_seen = c.now
      ∧ st'.first_seen.getD c.now = runStartOf c m idx := by
    unfold runStartOf
    cases hlk : holdLookup m (keyOf c idx) with
    | none =>
      refine ⟨⟨some c.now, c.now, true⟩, ?_, rfl, rfl, rfl⟩
      simp only [binStep, hlk, if_pos habove, sub_self]
      split <;> simp_all
    | some st =>
      cases hab : st.above with
      | false =>
        refine ⟨⟨some c.now, c.now, true⟩, ?_, rfl, rfl, by simp [hab]⟩
        simp only [binStep, hlk, hab, if_pos habove, Bool.false_eq_true, if_false,
          sub_self]
        split <;> simp_all
      | true =>
        cases hfs : st.first_seen with
        | none =>
          refine ⟨{ st with last_seen := c.now, above := true }, ?_, rfl, rfl,
            by simp [hab, hfs]⟩
          simp only [binStep, hlk, hab, hfs, if_pos habove, if_true,
            Option.getD_none, sub_self]
          split
          · simp_all
          · rfl
        | some fs =>
          refine ⟨{ st with last_seen := c.now, above := true }, ?_, rfl, rfl,
            by simp [hab, hfs]⟩
          simp only [binStep, hlk, hab, hfs, if_pos habove, if_true,
            Option.getD_some]
          split
          · simp_all
          · rfl
  obtain ⟨st', hstep, hab, hls, hfs⟩ := key
  rw [hstep]
  exact ⟨rfl, ⟨st', holdLookup_insert_self _ _ _, hab, hls, hfs⟩⟩

/-- C1: for every frame and every bin whose calibrated power is at or
above the effective threshold, the frame's detection list contains
exactly one event for that bin precisely when `hold_time ≤ 0` or
`now - first_seen ≥ hold_time`, where `first_seen` is the dwell-clock
origin (`runStartOf`) of the bin's current continuous above-threshold
run; the updated entry stays above with `first_seen` at that run start,
and with `hold_time = 0` the bin always yields exactly one event. -/
theorem c1_hysteresis_emission (cfg : WorkerCfg) (band : String) (now : ℚ)
    (s : EngineState) (frame : Frame) (idx : ℕ)
    (hbw : 0 < frame.bin_width_hz) (hff : 0 < freqFactor cfg)
    (hidx : idx < frame.powers_dbm.length)
    (habove : effectiveThreshold cfg s.noise_floor frame
      ≤ frame.powers_dbm.getD idx 0 + netCalOffsetDb cfg) :
    ((handleFrame cfg band now s frame).detections.countP
        (fun d => decide (d.freq_mhz = freqMhzOf (frameCtx cfg band now s frame) idx))
      = if cfg.min_hold_time_s ≤ 0
          ∨ cfg.min_hold_time_s ≤ now - runStartOf (frameCtx cfg band now s frame)
              (binLoop (frameCtx cfg band now s frame) s.hold_state (List.range idx)).1 idx
        then 1 else 0)
    ∧ (∃ st', holdLookup
          (binLoop (frameCtx cfg band now s frame) s.hold_state (List.range (idx + 1))).1
          (keyOf (frameCtx cfg band now s frame) idx) = some st'
        ∧ st'.above = true ∧ st'.last_seen = now
        ∧ st'.first_seen.getD now = runStartOf (frameCtx cfg band now s frame)
            (binLoop (frameCtx cfg band now s frame) s.hold_state (List.range idx)).1 idx)
    ∧ (cfg.min_hold_time_s = 0 →
        (handleFrame cfg band now s frame).detections.countP
          (fun d => decide (d.freq_mhz = freqMhzOf (frameCtx cfg band now s frame) idx))
        = 1) := by
  have hne : frame.powers_dbm ≠ [] :=
    List.ne_nil_of_length_pos (lt_of_le_of_lt (Nat.zero_le idx) hidx)
  have habove' : (frameCtx cfg band now s frame).abs_threshold
      ≤ pCal (frameCtx cfg band now s frame) idx := habove
  have hcbw : 0 < (frameCtx cfg band now s frame).bin_w := hbw
  have hcff : 0 < (frameCtx cfg band now s frame).f_factor := hff
  have hdets : (handleFrame cfg band now s frame).detections
      = (binLoop (frameCtx cfg band now s frame) s.hold_state
          (List.range frame.powers_dbm.length)).2 := by
    simp [handleFrame, hne]
  have hsplit : List.range frame.powers_dbm.length
      = (List.range idx ++ [idx])
        ++ (List.range (frame.powers_dbm.length - (idx + 1))).map
            (fun x => (idx + 1) + x) := by
    rw [← List.range_succ, ← List.range_add]
    congr 1
    omega
  have hstep := binStep_above_emits (frameCtx cfg band now s frame)
    (binLoop (frameCtx cfg band now s frame) s.hold_state (List.range idx)).1 idx habove'
  have hch : (frameCtx cfg band now s frame).hold = cfg.min_hold_time_s := rfl
  have hcn : (frameCtx cfg band now s frame).now = now := rfl
  rw [hch, hcn] at hstep
  have hmid : binLoop (frameCtx cfg band now s frame) s.hold_state (List.range idx ++ [idx])
      = ((binStep (frameCtx cfg band now s frame)
            (binLoop (frameCtx cfg band now s frame) s.hold_state (List.range idx)).1 idx).1,
         (binLoop (frameCtx cfg band now s frame) s.hold_state (List.range idx)).2
           ++ ((binStep (frameCtx cfg band now s frame)
                (binLoop (frameCtx cfg band now s frame) s.hold_state
                  (List.range idx)).1 idx).2.toList ++ [])) := by
    rw [binLoop_append]
    simp [binLoop]
  have hcount0 : ∀ (m : HoldMap) (l : List ℕ), (∀ j ∈ l, j ≠ idx) →
      (binLoop (frameCtx cfg band now s frame) m l).2.countP
        (fun d => decide (d.freq_mhz = freqMhzOf (frameCtx cfg band now s frame) idx))
        = 0 := by
    intro m l hl
    rw [List.countP_eq_zero]
    intro d hd
    obtain ⟨j, hj, hf⟩ := binLoop_dets_freq _ _ _ _ hd
    simp only [decide_eq_true_eq]
    intro hcon
    exact hl j hj (freqMhzOf_inj _ hcbw hcff (hf ▸ hcon ▸ rfl))
  have hcountSelf : ((binStep (frameCtx cfg band now s frame)
        (binLoop (frameCtx cfg band now s frame) s.hold_state (List.range idx)).1
        idx).2.toList).countP
        (fun d => decide (d.freq_mhz = freqMhzOf (frameCtx cfg band now s frame) idx))
      = if cfg.min_hold_time_s ≤ 0
          ∨ cfg.min_hold_time_s ≤ now - runStartOf (frameCtx cfg band now s frame)
              (binLoop (frameCtx cfg band now s frame) s.hold_state (List.range idx)).1 idx
        then 1 else 0 := by
    rw [hstep.1]
    split
    · simp [mkDetection]
    · simp
  have hmain : (handleFrame cfg band now s frame).detections.countP
      (fun d => decide (d.freq_mhz = freqMhzOf (frameCtx cfg band now s frame) idx))
      = if cfg.min_hold_time_s ≤ 0
          ∨ cfg.min_hold_time_s ≤ now - runStartOf (frameCtx cfg band now s frame)
              (binLoop (frameCtx cfg band now s frame) s.hold_state (List.range idx)).1 idx
        then 1 else 0 := by
    rw [hdets, hsplit, binLoop_append, hmid]
    simp only [List.countP_append, List.countP_nil]
    rw [hcount0 s.hold_state (List.range idx) (fun j hj => by
          simp only [List.mem_range] at hj; omega),
        hcount0 _ _ (fun j hj => by
          simp only [List.mem_map, List.mem_range] at hj
          obtain ⟨x, _, hx⟩ := hj
          omega),
        hcountSelf]
    omega
  refine ⟨hmain, ?_, fun h0 => by rw [hmain, if_pos (Or.inl (le_of_eq h0))]⟩
  have hrange1 : binLoop (frameCtx cfg band now s frame) s.hold_state (List.range (idx + 1))
      = binLoop (frameCtx cfg band now s frame) s.hold_state (List.range idx ++ [idx]) := by
    rw [List.range_succ]
  rw [hrange1, hmid]
  exact hstep.2

theorem c1_hysteresis_emission_witness :
    (0 : ℚ) < (Frame.mk 900000000 1000000 [-50]).bin_width_hz
    ∧ (handleFrame ⟨-100, false, 0, 0, 0, 0⟩ "A" 100 ⟨none, []⟩
        (Frame.mk 900000000 1000000 [-50])).detections.countP
        (fun d => decide (d.freq_mhz
          = freqMhzOf (frameCtx ⟨-100, false, 0, 0, 0, 0⟩ "A" 100 ⟨none, []⟩
              (Frame.mk 900000000 1000000 [-50])) 0))
      = 1 :=
  ⟨by norm_num,
   (c1_hysteresis_emission ⟨-100, false, 0, 0, 0, 0⟩ "A" 100 ⟨none, []⟩
      (Frame.mk 900000000 1000000 [-50]) 0 (by norm_num)
      (by norm_num [freqFactor]) (by norm_num)
      (by with_unfolding_all decide)).2.2 rfl⟩

theorem updatedNoiseFloor_eq_spec (cfg : WorkerCfg) (prev : Option ℚ) (frame : Frame) :
    updatedNoiseFloor cfg prev frame
      = specNoiseFloor prev (frame.powers_dbm.map (fun p => p + netCalOffsetDb cfg)) := by
  unfold updatedNoiseFloor specNoiseFloor noiseCandidates specNoiseCandidates
  cases prev with
  | none => simp [List.length_mergeSort]
  | some f =>
    simp only [List.length_mergeSort]
    ring_nf

/-- C2: for every non-empty frame, the emitted and stored noise floor
equal the spec's formula over the calibrated powers — the median of the
trimmed candidate set on the first frame, and
`0.9 * floor_prev + 0.1 * median_new` afterwards — and the candidate set
has exactly `floor(0.8*n)` elements when `n > 10` and `n` otherwise. -/
theorem c2_noise_floor_estimate (cfg : WorkerCfg) (band : String) (now : ℚ)
    (s : EngineState) (frame : Frame) (hne : frame.powers_dbm ≠ []) :
    (handleFrame cfg band now s frame).noise_emitted
      = some (specNoiseFloor s.noise_floor
          (frame.powers_dbm.map (fun p => p + netCalOffsetDb cfg)))
    ∧ (handleFrame cfg band now s frame).state.noise_floor
      = some (specNoiseFloor s.noise_floor
          (frame.powers_dbm.map (fun p => p + netCalOffsetDb cfg)))
    ∧ (specNoiseCandidates (frame.powers_dbm.map (fun p => p + netCalOffsetDb cfg))).length
      = if frame.powers_dbm.length > 10 then 4 * frame.powers_dbm.length / 5
        else frame.powers_dbm.length := by
  refine ⟨?_, ?_, ?_⟩
  · simp [handleFrame, hne, updatedNoiseFloor_eq_spec]
  · simp [handleFrame, hne, updatedNoiseFloor_eq_spec]
  · unfold specNoiseCandidates
    simp only [List.length_map]
    split
    · rename_i h
      rw [List.length_take, List.length_mergeSort, List.length_map]
      omega
    · rw [List.length_mergeSort, List.length_map]

theorem c2_noise_floor_estimate_witness :
    (([(-90 : ℚ), -90, -90, -90, -90, -90, -90, -90, -90, -90, -20] : List ℚ) ≠ [])
    ∧ (handleFrame ⟨10, true, 0, 0, 0, 0⟩ "A" 100 ⟨none, []⟩
        ⟨900000000, 1000000, [-90, -90, -90, -90, -90, -90, -90, -90, -90, -90, -20]⟩).noise_emitted
      = some (specNoiseFloor none
          (([(-90 : ℚ), -90, -90, -90, -90, -90, -90, -90, -90, -90, -20] : List ℚ).map
            (fun p => p + netCalOffsetDb ⟨10, true, 0, 0, 0, 0⟩))) :=
  ⟨by simp,
   (c2_noise_floor_estimate ⟨10, true, 0, 0, 0, 0⟩ "A" 100 ⟨none, []⟩
      ⟨900000000, 1000000, [-90, -90, -90, -90, -90, -90, -90, -90, -90, -90, -20]⟩
      (by simp)).1⟩

/-- C4 counterexample: the claim also asserts that a frame with a
non-positive `bin_width_hz` is skipped with no state mutation, but
`_handle_frame` never validates `bin_width_hz`: a one-bin frame with
`bin_width_hz = 0` is processed and mutates the noise-floor estimate. -/
theorem c4_counterexample :
    (Frame.mk 0 0 [-50]).bin_width_hz ≤ 0
    ∧ (handleFrame ⟨10, true, 0, 0, 0, 0⟩ "A" 0 ⟨none, []⟩ (Frame.mk 0 0 [-50])).state
        ≠ EngineState.mk none [] := by
  constructor
  · with_unfolding_all decide
  · with_unfolding_all decide

/-- C4 (amended): a frame with zero bins is skipped outright — the engine
state is unchanged, no detection is emitted and no noise floor is
emitted; frames with non-positive `bin_width_hz` but at least one bin
are not rejected. -/
theorem c4_empty_frame_skipped (cfg : WorkerCfg) (band : String) (now : ℚ)
    (s : EngineState) (frame : Frame) (h : frame.powers_dbm = []) :
    handleFrame cfg band now s frame
      = { state := s, detections := [], noise_emitted := none } := by
  simp [handleFrame, h]

theorem c4_empty_frame_skipped_witness :
    handleFrame ⟨10, true, 3, 1, 2, 5⟩ "B" 77
        ⟨some 3, [(1, ⟨none, 0, false⟩)]⟩ (Frame.mk 1 2 [])
      = { state := ⟨some 3, [(1, ⟨none, 0, false⟩)]⟩, detections := [],
          noise_emitted := none } :=
  c4_empty_frame_skipped ⟨10, true, 3, 1, 2, 5⟩ "B" 77
    ⟨some 3, [(1, ⟨none, 0, false⟩)]⟩ (Frame.mk 1 2 []) rfl

theorem c3_below_threshold_resets_dwell_witness :
    (holdLookup [((1 : ℚ)/2, (⟨some 0, 0, true⟩ : HoldSt))] ((1 : ℚ)/2)
        = some ⟨some 0, 0, true⟩)
    ∧ ((⟨[-90], 0, -80, 0, 1000000, 1, 5, 3, 0, "A"⟩ : BinCtx).abs_threshold >
        pCal ⟨[-90], 0, -80, 0, 1000000, 1, 5, 3, 0, "A"⟩ 0)
    ∧ binStep ⟨[-90], 0, -80, 0, 1000000, 1, 5, 3, 0, "A"⟩
        [((1 : ℚ)/2, ⟨some 0, 0, true⟩)] 0
      = (holdInsert [((1 : ℚ)/2, ⟨some 0, 0, true⟩)]
          (keyOf ⟨[-90], 0, -80, 0, 1000000, 1, 5, 3, 0, "A"⟩ 0)
          ⟨none, (5 : ℚ), false⟩, none) := by
  have hk : keyOf (⟨[-90], 0, -80, 0, 1000000, 1, 5, 3, 0, "A"⟩ : BinCtx) 0
      = (1 : ℚ)/2 := by
    with_unfolding_all decide
  have hlk : holdLookup [((1 : ℚ)/2, (⟨some 0, 0, true⟩ : HoldSt))]
      (keyOf (⟨[-90], 0, -80, 0, 1000000, 1, 5, 3, 0, "A"⟩ : BinCtx) 0)
      = some ⟨some 0, 0, true⟩ := by
    rw [hk]; simp [holdLookup]
  have hb : pCal (⟨[-90], 0, -80, 0, 1000000, 1, 5, 3, 0, "A"⟩ : BinCtx) 0
      < (⟨[-90], 0, -80, 0, 1000000, 1, 5, 3, 0, "A"⟩ : BinCtx).abs_threshold := by
    with_unfolding_all decide
  exact ⟨by rw [hk] at hlk; exact hlk, hb,
    (c3_below_threshold_resets_dwell _ _ 0 _ hlk rfl hb).1⟩



/-! ## Transport lemmas -/

theorem lastLookup_insert_self (m : List (String × ℚ)) (k : String) (v : ℚ) :
    lastLookup (lastInsert m k v) k = some v := by
  induction m with
  | nil => simp [lastInsert, lastLookup]
  | cons kv rest ih =>
    by_cases h : kv.1 = k
    · simp [lastInsert, lastLookup, h]
    · simp [lastInsert, lastLookup, h, ih]

theorem resolveLocalIp_state (cfg : AtakCfg) (env : NetEnv) (st : BridgeState) :
    (resolveLocalIp cfg env st).2.last_sent_by_key = st.last_sent_by_key
    ∧ (resolveLocalIp cfg env st).2.sock = st.sock := by
  unfold resolveLocalIp
  split
  · exact ⟨rfl, rfl⟩
  · split <;> exact ⟨rfl, rfl⟩

theorem getSocket_cases (cfg : AtakCfg) (env : NetEnv) (st : BridgeState) :
    (∃ s, st.sock = some s ∧ getSocket cfg env st = .ok (s, st))
    ∨ (st.sock = none ∧ env.create_ok = true
        ∧ ∃ s st₁, getSocket cfg env st = .ok (s, st₁)
            ∧ st₁.sock = some s
            ∧ st₁.last_sent_by_key = st.last_sent_by_key)
    ∨ (st.sock = none ∧ env.create_ok = false
        ∧ getSocket cfg env st = .error ()) := by
  cases hs : st.sock with
  | some s =>
    refine Or.inl ⟨s, rfl, ?_⟩
    unfold getSocket
    rw [hs]
  | none =>
    cases hcr : env.create_ok with
    | false =>
      refine Or.inr (Or.inr ⟨rfl, rfl, ?_⟩)
      unfold getSocket
      rw [hs, hcr]
      rfl
    | true =>
      refine Or.inr (Or.inl ⟨rfl, rfl, ?_⟩)
      unfold getSocket
      rw [hs, hcr]
      simp only [if_true]
      by_cases hmc : isMulticastHost cfg.host = true
      · rw [if_pos hmc]
        exact ⟨_, _, rfl, rfl, (resolveLocalIp_state cfg env st).1⟩
      · rw [if_neg hmc]
        exact ⟨_, _, rfl, rfl, rfl⟩

theorem sendRaw_last_sent (cfg : AtakCfg) (env : NetEnv) (st : BridgeState)
    (p : CotPayload) (es : Bool) (lbl : String) :
    (sendRaw cfg env st p es lbl).1.last_sent_by_key = st.last_sent_by_key := by
  unfold sendRaw
  rcases getSocket_cases cfg env st with ⟨s, hs, hG⟩
    | ⟨hs, hcr, s, st₁, hG, hsock, hls⟩ | ⟨hs, hcr, hG⟩
  · rw [hG]
    cases hsd : env.sendto_ok
    · simp [(resolveLocalIp_state cfg env st).1]
    · cases es <;> simp [(resolveLocalIp_state cfg env st).1]
  · rw [hG]
    cases hsd : env.sendto_ok
    · simp [(resolveLocalIp_state cfg env st₁).1, hls]
    · cases es <;> simp [(resolveLocalIp_state cfg env st₁).1, hls]
  · rw [hG]
    simp [(resolveLocalIp_state cfg env st).1]

theorem sendRaw_ok_events (cfg : AtakCfg) (env : NetEnv) (st : BridgeState)
    (p : CotPayload) (hcr : env.create_ok = true) (hsd : env.sendto_ok = true) :
    (sendRaw cfg env st p false "").2 = [.datagram p] := by
  unfold sendRaw
  rcases getSocket_cases cfg env st with ⟨s, hs, hG⟩
    | ⟨hs, -, s, st₁, hG, -, -⟩ | ⟨hs, hcr', hG⟩
  · rw [hG, hsd]
    rfl
  · rw [hG, hsd]
    rfl
  · rw [hcr] at hcr'
    exact absurd hcr' (by simp)

theorem sendRaw_fail_events (cfg : AtakCfg) (env : NetEnv) (st : BridgeState)
    (p : CotPayload) (es : Bool) (lbl : String) (hsd : env.sendto_ok = false) :
    ∃ via, (sendRaw cfg env st p es lbl).2
      = [.status (.sendFailed cfg.host cfg.port via)] := by
  unfold sendRaw
  rcases getSocket_cases cfg env st with ⟨s, hs, hG⟩
    | ⟨hs, -, s, st₁, hG, -, -⟩ | ⟨hs, hcr, hG⟩
  · rw [hG, hsd]
    exact ⟨_, rfl⟩
  · rw [hG, hsd]
    exact ⟨_, rfl⟩
  · rw [hG]
    exact ⟨_, rfl⟩

theorem sendRaw_nosocket_events (cfg : AtakCfg) (env : NetEnv) (st : BridgeState)
    (p : CotPayload) (es : Bool) (lbl : String)
    (hs : st.sock = none) (hcr : env.create_ok = false) :
    ∃ via, (sendRaw cfg env st p es lbl).2
      = [.status (.sendFailed cfg.host cfg.port via)] := by
  unfold sendRaw
  rcases getSocket_cases cfg env st with ⟨s, hs', hG⟩
    | ⟨-, hcr', -⟩ | ⟨-, -, hG⟩
  · rw [hs] at hs'
    exact absurd hs' (by simp)
  · rw [hcr] at hcr'
    exact absurd hcr' (by simp)
  · rw [hG]
    exact ⟨_, rfl⟩

theorem send_detection_noop (cfg : AtakCfg) (env : NetEnv) (now : ℚ)
    (st : BridgeState) (det : DetDict) (nf : Option ℚ)
    (hen : cfg.enabled = true)
    (hlt : now - (lastLookup st.last_sent_by_key (identityKey cfg det)).getD 0 < 1) :
    send_detection cfg env now st det nf = (st, []) := by
  unfold identityKey at hlt
  unfold send_detection
  rw [hen]
  simp only [Bool.true_eq_false, if_false]
  rw [if_pos hlt]

theorem send_detection_go (cfg : AtakCfg) (env : NetEnv) (now : ℚ)
    (st : BridgeState) (det : DetDict) (nf : Option ℚ)
    (hen : cfg.enabled = true)
    (hge : ¬ (now - (lastLookup st.last_sent_by_key (identityKey cfg det)).getD 0 < 1)) :
    send_detection cfg env now st det nf
      = sendRaw cfg env
          { st with last_sent_by_key :=
              lastInsert st.last_sent_by_key (identityKey cfg det) now }
          ⟨identityKey cfg det,
           (preview_identity cfg
             (if 0 < extractFreqMhz det then extractFreqMhz det else 0)).1,
           if remarkParts det nf = [] then "HackRF-Watchdog detection"
           else String.intercalate " | " ((remarkParts det nf).map renderRemark)⟩
          false "" := by
  unfold identityKey at hge
  unfold identityKey
  unfold send_detection
  rw [hen]
  simp only [Bool.true_eq_false, if_false]
  rw [if_neg hge]


/-- C6: with the bridge enabled and a working transport, two
`send_detection` calls for the same identity key within one second of
each other transmit exactly one datagram: the first sends, the second is
a silent no-op (state unchanged, no event, no error); and in general any
call arriving less than one second after the recorded last send for its
key is a no-op. -/
theorem c6_per_identity_rate_limit (cfg : AtakCfg) (env : NetEnv) (st : BridgeState)
    (d₁ d₂ : DetDict) (nf₁ nf₂ : Option ℚ) (t₁ t₂ : ℚ)
    (hen : cfg.enabled = true) (hcr : env.create_ok = true)
    (hsd : env.sendto_ok = true)
    (hkey : identityKey cfg d₂ = identityKey cfg d₁)
    (hfirst : 1 ≤ t₁ - (lastLookup st.last_sent_by_key (identityKey cfg d₁)).getD 0)
    (hsecond : t₂ - t₁ < 1) :
    (((send_detection cfg env t₁ st d₁ nf₁).2
        ++ (send_detection cfg env t₂ (send_detection cfg env t₁ st d₁ nf₁).1
            d₂ nf₂).2).countP isDatagram = 1)
    ∧ send_detection cfg env t₂ (send_detection cfg env t₁ st d₁ nf₁).1 d₂ nf₂
        = ((send_detection cfg env t₁ st d₁ nf₁).1, [])
    ∧ (∀ (st' : BridgeState) (d' : DetDict) (nf' : Option ℚ) (t' : ℚ),
        t' - (lastLookup st'.last_sent_by_key (identityKey cfg d')).getD 0 < 1 →
        send_detection cfg env t' st' d' nf' = (st', [])) := by
  have hgo := send_detection_go cfg env t₁ st d₁ nf₁ hen
    (fun hcon => absurd hfirst (not_le.2 hcon))
  have hev₁ : (send_detection cfg env t₁ st d₁ nf₁).2
      = [.datagram ⟨identityKey cfg d₁,
          (preview_identity cfg
            (if 0 < extractFreqMhz d₁ then extractFreqMhz d₁ else 0)).1,
          if remarkParts d₁ nf₁ = [] then "HackRF-Watchdog detection"
          else String.intercalate " | " ((remarkParts d₁ nf₁).map renderRemark)⟩] := by
    rw [hgo]
    exact sendRaw_ok_events cfg env _ _ hcr hsd
  have hlast : lastLookup (send_detection cfg env t₁ st d₁ nf₁).1.last_sent_by_key
      (identityKey cfg d₁) = some t₁ := by
    rw [hgo, sendRaw_last_sent]
    exact lastLookup_insert_self _ _ _
  have hnoop : send_detection cfg env t₂ (send_detection cfg env t₁ st d₁ nf₁).1 d₂ nf₂
      = ((send_detection cfg env t₁ st d₁ nf₁).1, []) := by
    apply send_detection_noop cfg env t₂ _ d₂ nf₂ hen
    rw [hkey, hlast]
    simpa using hsecond
  refine ⟨?_, hnoop, fun st' d' nf' t' hlt =>
    send_detection_noop cfg env t' st' d' nf' hen hlt⟩
  rw [hev₁, hnoop]
  simp [isDatagram]

theorem c6_per_identity_rate_limit_witness :
    ((send_detection ⟨true, "239.2.3.1", 6969, 1, "", true, "RF-", "HackRF-Watchdog", "WD-X"⟩
          ⟨true, true, none⟩ 100 ⟨none, [], none⟩
          ⟨some 915, some (-20), none, none, none, ""⟩ none).2
        ++ (send_detection ⟨true, "239.2.3.1", 6969, 1, "", true, "RF-", "HackRF-Watchdog", "WD-X"⟩
            ⟨true, true, none⟩ (100 + 1/2)
            (send_detection ⟨true, "239.2.3.1", 6969, 1, "", true, "RF-", "HackRF-Watchdog", "WD-X"⟩
              ⟨true, true, none⟩ 100 ⟨none, [], none⟩
              ⟨some 915, some (-20), none, none, none, ""⟩ none).1
            ⟨some 915, some (-20), none, none, none, ""⟩ none).2).countP isDatagram
      = 1 :=
  (c6_per_identity_rate_limit
    ⟨true, "239.2.3.1", 6969, 1, "", true, "RF-", "HackRF-Watchdog", "WD-X"⟩
    ⟨true, true, none⟩ ⟨none, [], none⟩
    ⟨some 915, some (-20), none, none, none, ""⟩
    ⟨some 915, some (-20), none, none, none, ""⟩ none none 100 (100 + 1/2)
    rfl rfl rfl rfl (by with_unfolding_all decide) (by norm_num)).1

/-- C9 counterexample: the claim asserts the transport state is reset
after a failed send so the next attempt can recreate the socket, but the
`except` branch of `_send_raw` never resets `_sock`: in the claim's own
scenario (multicast destination `239.2.3.1`, no bind IP, failed
auto-detection) a send whose `sendto` fails leaves the freshly created
socket installed in the transport state. -/
theorem c9_counterexample :
    (NetEnv.mk true false none).sendto_ok = false
    ∧ (sendRaw ⟨true, "239.2.3.1", 6969, 1, "", true, "RF-", "HackRF-Watchdog", "WD-X"⟩
        ⟨true, false, none⟩ ⟨none, [], none⟩ ⟨"u", "c", "r"⟩ false "").1.sock ≠ none :=
  ⟨rfl, by with_unfolding_all decide⟩

/-- C9 (amended): a failed transmission never raises; the only event is a
single `Send failed` status carrying the destination host/port and the
best-known outbound IP, and the rate-limit map is untouched — but the
transport state is *not* reset: an existing socket is kept, a socket
created during the failing attempt is kept as well, and only when socket
creation itself failed does the transport stay socketless (so only then
does the next attempt recreate it). -/
theorem c9_failure_status_and_socket_retention (cfg : AtakCfg) (env : NetEnv)
    (st : BridgeState) (p : CotPayload) (es : Bool) (lbl : String)
    (hsd : env.sendto_ok = false) :
    (∃ via, (sendRaw cfg env st p es lbl).2
        = [.status (.sendFailed cfg.host cfg.port via)])
    ∧ (∀ s, st.sock = some s → (sendRaw cfg env st p es lbl).1.sock = some s)
    ∧ (st.sock = none → (sendRaw cfg env st p es lbl).1.sock.isSome = env.create_ok)
    ∧ (sendRaw cfg env st p es lbl).1.last_sent_by_key = st.last_sent_by_key := by
  refine ⟨sendRaw_fail_events cfg env st p es lbl hsd, ?_, ?_,
    sendRaw_last_sent cfg env st p es lbl⟩
  · intro s hs
    unfold sendRaw
    rcases getSocket_cases cfg env st with ⟨s', hs', hG⟩
      | ⟨hs', -, -⟩ | ⟨hs', -, -⟩
    · rw [hG, hsd]
      simp only [Bool.false_eq_true, if_false]
      rw [(resolveLocalIp_state cfg env st).2]
      exact hs
    · rw [hs] at hs'
      exact absurd hs' (by simp)
    · rw [hs] at hs'
      exact absurd hs' (by simp)
  · intro hs
    unfold sendRaw
    rcases getSocket_cases cfg env st with ⟨s', hs', hG⟩
      | ⟨-, hcr, s', st₁, hG, hsock, -⟩ | ⟨-, hcr, hG⟩
    · rw [hs] at hs'
      exact absurd hs' (by simp)
    · rw [hG, hsd]
      simp only [Bool.false_eq_true, if_false]
      rw [(resolveLocalIp_state cfg env st₁).2, hsock, hcr]
      rfl
    · rw [hG]
      rw [(resolveLocalIp_state cfg env st).2, hs, hcr]
      rfl

theorem c9_failure_status_and_socket_retention_witness :
    ∃ via, (sendRaw ⟨true, "239.2.3.1", 6969, 1, "", true, "RF-", "HackRF-Watchdog", "WD-X"⟩
        ⟨true, false, none⟩ ⟨none, [], none⟩ ⟨"u", "c", "r"⟩ false "").2
      = [.status (.sendFailed "239.2.3.1" 6969 via)] :=
  (c9_failure_status_and_socket_retention
    ⟨true, "239.2.3.1", 6969, 1, "", true, "RF-", "HackRF-Watchdog", "WD-X"⟩
    ⟨true, false, none⟩ ⟨none, [], none⟩ ⟨"u", "c", "r"⟩ false "" rfl).1

/-- C10: `send_detection` records the per-identity last-sent timestamp
before attempting transmission, so when the transmission fails (`sendto`
error, or no socket obtainable), the rate-limit entry is updated anyway:
no datagram is transmitted, yet every further send for the same identity
key within the next second is suppressed as a no-op, under any transport
environment. -/
theorem c10_rate_limit_updated_on_failure (cfg : AtakCfg) (env : NetEnv)
    (st : BridgeState) (det : DetDict) (nf : Option ℚ) (t₁ : ℚ)
    (hen : cfg.enabled = true)
    (hfail : env.sendto_ok = false ∨ (st.sock = none ∧ env.create_ok = false))
    (hfirst : 1 ≤ t₁ - (lastLookup st.last_sent_by_key (identityKey cfg det)).getD 0) :
    lastLookup (send_detection cfg env t₁ st det nf).1.last_sent_by_key
        (identityKey cfg det) = some t₁
    ∧ (send_detection cfg env t₁ st det nf).2.countP isDatagram = 0
    ∧ (∀ (env' : NetEnv) (d₂ : DetDict) (nf₂ : Option ℚ) (t₂ : ℚ),
        identityKey cfg d₂ = identityKey cfg det → t₂ - t₁ < 1 →
        send_detection cfg env' t₂ (send_detection cfg env t₁ st det nf).1 d₂ nf₂
          = ((send_detection cfg env t₁ st det nf).1, [])) := by
  have hgo := send_detection_go cfg env t₁ st det nf hen
    (fun hcon => absurd hfirst (not_le.2 hcon))
  have hlast : lastLookup (send_detection cfg env t₁ st det nf).1.last_sent_by_key
      (identityKey cfg det) = some t₁ := by
    rw [hgo, sendRaw_last_sent]
    exact lastLookup_insert_self _ _ _
  refine ⟨hlast, ?_, ?_⟩
  · rw [hgo]
    rcases hfail with hsd | ⟨hs, hcr⟩
    · obtain ⟨via, hev⟩ := sendRaw_fail_events cfg env _ _ false "" hsd
      rw [hev]
      simp [isDatagram]
    · obtain ⟨via, hev⟩ := sendRaw_nosocket_events cfg env
        { st with last_sent_by_key :=
            lastInsert st.last_sent_by_key (identityKey cfg det) t₁ }
        ⟨identityKey cfg det,
         (preview_identity cfg
           (if 0 < extractFreqMhz det then extractFreqMhz det else 0)).1,
         if remarkParts det nf = [] then "HackRF-Watchdog detection"
         else String.intercalate " | " ((remarkParts det nf).map renderRemark)⟩
        false "" hs hcr
      rw [hev]
      simp [isDatagram]
  · intro env' d₂ nf₂ t₂ hkey hlt
    apply send_detection_noop cfg env' t₂ _ d₂ nf₂ hen
    rw [hkey, hlast]
    simpa using hlt

theorem c10_rate_limit_updated_on_failure_witness :
    lastLookup (send_detection
        ⟨true, "239.2.3.1", 6969, 1, "", true, "RF-", "HackRF-Watchdog", "WD-X"⟩
        ⟨true, false, none⟩ 100 ⟨none, [], none⟩
        ⟨some 915, some (-20), none, none, none, ""⟩ none).1.last_sent_by_key
      (identityKey ⟨true, "239.2.3.1", 6969, 1, "", true, "RF-", "HackRF-Watchdog", "WD-X"⟩
        ⟨some 915, some (-20), none, none, none, ""⟩) = some 100 :=
  (c10_rate_limit_updated_on_failure
    ⟨true, "239.2.3.1", 6969, 1, "", true, "RF-", "HackRF-Watchdog", "WD-X"⟩
    ⟨true, false, none⟩ ⟨none, [], none⟩
    ⟨some 915, some (-20), none, none, none, ""⟩ none 100
    rfl (Or.inl rfl) (by with_unfolding_all decide)).1


/-! ## Decimal-rendering lemmas for the identity claims -/

theorem digitChar_inj : ∀ m, m < 10 → ∀ n, n < 10 → digitChar m = digitChar n → m = n := by
  decide

theorem natDigitsAux_ne_nil (f n : ℕ) (hf : 0 < f) : natDigitsAux f n ≠ [] := by
  cases f with
  | zero => omega
  | succ s =>
    unfold natDigitsAux
    split
    · simp
    · simp

theorem natDigitsAux_congr : ∀ (f f' n : ℕ), n < 10 ^ f → 0 < f → f ≤ f' →
    natDigitsAux f' n = natDigitsAux f n := by
  intro f
  induction f with
  | zero => intro f' n _ h _; omega
  | succ s ih =>
    intro f' n hn _ hle
    obtain ⟨t, rfl⟩ : ∃ t, f' = t + 1 := ⟨f' - 1, by omega⟩
    by_cases h10 : n < 10
    · simp [natDigitsAux, h10]
    · rcases Nat.eq_zero_or_pos s with hs | hs
      · subst hs
        rw [pow_one] at hn
        omega
      · unfold natDigitsAux
        rw [if_neg h10, if_neg h10]
        congr 1
        refine ih t (n / 10) ?_ hs (by omega)
        rw [Nat.div_lt_iff_lt_mul (by norm_num)]
        calc n < 10 ^ (s + 1) := hn
        _ = 10 ^ s * 10 := by rw [pow_succ]

theorem natDigitsAux_inj : ∀ (f m n : ℕ), m < 10 ^ f → n < 10 ^ f →
    natDigitsAux f m = natDigitsAux f n → m = n := by
  intro f
  induction f with
  | zero =>
    intro m n hm hn _
    simp only [pow_zero, Nat.lt_one_iff] at hm hn
    omega
  | succ s ih =>
    intro m n hm hn h
    have hdiv : ∀ k, k < 10 ^ (s + 1) → k / 10 < 10 ^ s := by
      intro k hk
      rw [Nat.div_lt_iff_lt_mul (by norm_num)]
      calc k < 10 ^ (s + 1) := hk
      _ = 10 ^ s * 10 := by rw [pow_succ]
    have hspos : ∀ k : ℕ, ¬ k < 10 → k < 10 ^ (s + 1) → 0 < s := by
      intro k hk10 hks
      rcases Nat.eq_zero_or_pos s with h0 | h0
      · subst h0
        rw [pow_one] at hks
        omega
      · exact h0
    by_cases hm10 : m < 10 <;> by_cases hn10 : n < 10
    · unfold natDigitsAux at h
      rw [if_pos hm10, if_pos hn10] at h
      simp only [List.cons.injEq, and_true] at h
      exact digitChar_inj m hm10 n hn10 h
    · exfalso
      unfold natDigitsAux at h
      rw [if_pos hm10, if_neg hn10] at h
      have hlen := congrArg List.length h
      simp only [List.length_cons, List.length_nil, List.length_append] at hlen
      exact natDigitsAux_ne_nil s (n / 10) (hspos n hn10 hn)
        (List.length_eq_zero.1 (by omega))
    · exfalso
      unfold natDigitsAux at h
      rw [if_neg hm10, if_pos hn10] at h
      have hlen := congrArg List.length h
      simp only [List.length_cons, List.length_nil, List.length_append] at hlen
      exact natDigitsAux_ne_nil s (m / 10) (hspos m hm10 hm)
        (List.length_eq_zero.1 (by omega))
    · unfold natDigitsAux at h
      rw [if_neg hm10, if_neg hn10] at h
      obtain ⟨h1, h2⟩ := List.append_inj' h (by simp)
      simp only [List.cons.injEq, and_true] at h2
      have e1 := ih (m / 10) (n / 10) (hdiv m hm) (hdiv n hn) h1
      have e2 := digitChar_inj _ (Nat.mod_lt m (by norm_num)) _
        (Nat.mod_lt n (by norm_num)) h2
      omega

theorem natDigits_inj (m n : ℕ) (h : natDigits m = natDigits n) : m = n := by
  have hm1 : m < 10 ^ (m + 1) :=
    lt_of_lt_of_le (Nat.lt_pow_self (by norm_num) m)
      (Nat.pow_le_pow_right (by norm_num) (by omega))
  have hn1 : n < 10 ^ (n + 1) :=
    lt_of_lt_of_le (Nat.lt_pow_self (by norm_num) n)
      (Nat.pow_le_pow_right (by norm_num) (by omega))
  have hmF : m < 10 ^ max (m + 1) (n + 1) :=
    lt_of_lt_of_le hm1 (Nat.pow_le_pow_right (by norm_num) (le_max_left _ _))
  have hnF : n < 10 ^ max (m + 1) (n + 1) :=
    lt_of_lt_of_le hn1 (Nat.pow_le_pow_right (by norm_num) (le_max_right _ _))
  have em := natDigitsAux_congr (m + 1) (max (m + 1) (n + 1)) m hm1 (by omega)
    (le_max_left _ _)
  have en := natDigitsAux_congr (n + 1) (max (m + 1) (n + 1)) n hn1 (by omega)
    (le_max_right _ _)
  exact natDigitsAux_inj (max (m + 1) (n + 1)) m n hmF hnF
    (em.trans ((h : natDigitsAux (m + 1) m = natDigitsAux (n + 1) n).trans en.symm))

theorem pad3_inj (r s : ℕ) (h : pad3 r = pad3 s) : r % 1000 = s % 1000 := by
  unfold pad3 at h
  simp only [List.cons.injEq, and_true] at h
  obtain ⟨h1, h2, h3⟩ := h
  have e1 := digitChar_inj _ (Nat.mod_lt _ (by norm_num)) _
    (Nat.mod_lt _ (by norm_num)) h1
  have e2 := digitChar_inj _ (Nat.mod_lt _ (by norm_num)) _
    (Nat.mod_lt _ (by norm_num)) h2
  have e3 := digitChar_inj _ (Nat.mod_lt _ (by norm_num)) _
    (Nat.mod_lt _ (by norm_num)) h3
  omega

theorem milliChars_inj (m n : ℕ) (h : milliChars m = milliChars n) : m = n := by
  unfold milliChars at h
  obtain ⟨h1, h2⟩ := List.append_inj' h (by simp [pad3])
  simp only [List.cons.injEq, true_and] at h2
  have e1 := natDigits_inj _ _ h1
  have e2 := pad3_inj _ _ h2
  have hm := Nat.mod_mod_of_dvd m (dvd_refl 1000)
  omega

theorem roundHalfEven_nonneg (x : ℚ) (hx : 0 ≤ x) : 0 ≤ roundHalfEven x := by
  have h0 : (0 : ℤ) ≤ ⌊x⌋ := Int.floor_nonneg.2 hx
  simp only [roundHalfEven]
  split
  · exact h0
  · split
    · omega
    · split <;> omega

theorem formatFixed3_data_inj_pos (x y : ℚ) (hx : 0 < x) (hy : 0 < y)
    (h : (formatFixed3 x).data = (formatFixed3 y).data) :
    roundHalfEven (1000 * x) = roundHalfEven (1000 * y) := by
  have hnx : 0 ≤ roundHalfEven (1000 * x) :=
    roundHalfEven_nonneg _ (by positivity)
  have hny : 0 ≤ roundHalfEven (1000 * y) :=
    roundHalfEven_nonneg _ (by positivity)
  unfold formatFixed3 at h
  rw [if_neg (not_lt.2 hnx), if_neg (not_lt.2 hny)] at h
  have := milliChars_inj _ _ h
  omega

theorem formatFixed3_eq_of_round_eq (x y : ℚ)
    (h : roundHalfEven (1000 * x) = roundHalfEven (1000 * y)) :
    formatFixed3 x = formatFixed3 y := by
  unfold formatFixed3
  rw [h]

/-- C7 counterexample: identities are derived from the frequency at
*three* decimals, not six — `100.000001` and `100.000002` MHz quantize
to different 6-decimal values yet produce identical `(callsign, uid)`
pairs, contradicting "different 6-decimal-rounded values produce
different identities". -/
theorem c7_counterexample :
    round6 ((100000001 : ℚ) / 1000000) ≠ round6 ((100000002 : ℚ) / 1000000)
    ∧ preview_identity ⟨true, "239.2.3.1", 6969, 1, "", true, "RF-", "HackRF-Watchdog", "WD-X"⟩
        ((100000001 : ℚ) / 1000000)
      = preview_identity ⟨true, "239.2.3.1", 6969, 1, "", true, "RF-", "HackRF-Watchdog", "WD-X"⟩
        ((100000002 : ℚ) / 1000000) := by
  constructor
  · with_unfolding_all decide
  · with_unfolding_all decide

/-- C7 (amended): in per-frequency mode with positive frequency, callsign
and uid are the identical string `prefix + format(freq, 3 decimals) +
"MHz"`, and two frequencies produce the same identity exactly when they
round (half to even) to the same 3-decimal value — 6-decimal agreement
is neither necessary nor sufficient. -/
theorem c7_identity_is_3_decimal (cfg : AtakCfg) (f₁ f₂ : ℚ)
    (hper : cfg.use_per_frequency_uid = true) (h1 : 0 < f₁) (h2 : 0 < f₂) :
    preview_identity cfg f₁
      = (cfg.callsign_pre ++ formatFixed3 f₁ ++ "MHz",
         cfg.callsign_pre ++ formatFixed3 f₁ ++ "MHz")
    ∧ (preview_identity cfg f₁ = preview_identity cfg f₂
        ↔ roundHalfEven (1000 * f₁) = roundHalfEven (1000 * f₂)) := by
  have hid : ∀ f : ℚ, 0 < f → preview_identity cfg f
      = (cfg.callsign_pre ++ formatFixed3 f ++ "MHz",
         cfg.callsign_pre ++ formatFixed3 f ++ "MHz") := by
    intro f hf
    unfold preview_identity
    rw [if_pos ⟨hper, hf⟩]
  refine ⟨hid f₁ h1, ?_, ?_⟩
  · intro h
    rw [hid f₁ h1, hid f₂ h2] at h
    simp only [Prod.mk.injEq, and_self] at h
    have hdat := congrArg String.data h
    rw [String.data_append, String.data_append, String.data_append,
      String.data_append] at hdat
    obtain ⟨hpre, -⟩ := List.append_inj' hdat rfl
    have hfmt := List.append_cancel_left hpre
    exact formatFixed3_data_inj_pos f₁ f₂ h1 h2 hfmt
  · intro h
    rw [hid f₁ h1, hid f₂ h2, formatFixed3_eq_of_round_eq f₁ f₂ h]

theorem c7_identity_is_3_decimal_witness :
    preview_identity ⟨true, "239.2.3.1", 6969, 1, "", true, "RF-", "HackRF-Watchdog", "WD-X"⟩ 915
      = ((⟨true, "239.2.3.1", 6969, 1, "", true, "RF-", "HackRF-Watchdog", "WD-X"⟩ : AtakCfg).callsign_pre
          ++ formatFixed3 915 ++ "MHz",
         (⟨true, "239.2.3.1", 6969, 1, "", true, "RF-", "HackRF-Watchdog", "WD-X"⟩ : AtakCfg).callsign_pre
          ++ formatFixed3 915 ++ "MHz")
    ∧ (preview_identity ⟨true, "239.2.3.1", 6969, 1, "", true, "RF-", "HackRF-Watchdog", "WD-X"⟩ 915
        = preview_identity ⟨true, "239.2.3.1", 6969, 1, "", true, "RF-", "HackRF-Watchdog", "WD-X"⟩
            ((18301 : ℚ) / 20)
        ↔ roundHalfEven (1000 * 915) = roundHalfEven (1000 * ((18301 : ℚ) / 20))) :=
  c7_identity_is_3_decimal
    ⟨true, "239.2.3.1", 6969, 1, "", true, "RF-", "HackRF-Watchdog", "WD-X"⟩
    915 ((18301 : ℚ) / 20) rfl (by norm_num) (by norm_num)


theorem mem_freqPart (det : DetDict) (e : RemarkField) :
    e ∈ freqPart det ↔ 0 < extractFreqMhz det ∧ e = .freq (extractFreqMhz det) := by
  unfold freqPart
  split <;> simp_all

theorem mem_powerPart (det : DetDict) (e : RemarkField) :
    e ∈ powerPart det ↔ ∃ p, det.power_dbm = some p ∧ e = .power p := by
  unfold powerPart
  cases det.power_dbm <;> simp

theorem mem_calPart (det : DetDict) (e : RemarkField) :
    e ∈ calPart det ↔ ∃ c, det.cal_offset_db = some c ∧ 1/20 ≤ |c| ∧ e = .calOffset c := by
  unfold calPart
  cases det.cal_offset_db <;> [simp; (split <;> simp_all)]

theorem mem_rawPart (det : DetDict) (e : RemarkField) :
    e ∈ rawPart det
      ↔ ∃ r p, det.power_dbm_raw = some r ∧ det.power_dbm = some p
          ∧ 1/20 ≤ |r - p| ∧ e = .raw r := by
  unfold rawPart
  cases det.power_dbm_raw <;> cases det.power_dbm <;>
    first
    | simp
    | (split <;> simp_all)

theorem mem_ppmPart (det : DetDict) (e : RemarkField) :
    e ∈ ppmPart det ↔ ∃ v, det.freq_ppm = some v ∧ 1/20 ≤ |v| ∧ e = .ppm v := by
  unfold ppmPart
  cases det.freq_ppm <;> [simp; (split <;> simp_all)]

theorem mem_noisePart (det : DetDict) (nf : Option ℚ) (e : RemarkField) :
    e ∈ noisePart det nf
      ↔ ∃ v p, nf = some v ∧ det.power_dbm = some p
          ∧ (e = .noiseFloor v ∨ e = .aboveNoise (p - v)) := by
  unfold noisePart
  cases nf <;> cases det.power_dbm <;> simp

theorem mem_bandPart (det : DetDict) (e : RemarkField) :
    e ∈ bandPart det ↔ det.band ≠ "" ∧ e = .band det.band := by
  unfold bandPart
  split <;> simp_all

/-- C8 counterexample: the claim asserts every optional remarks field —
including the noise floor — is included only when its magnitude is at
least 0.05, but `send_detection` appends the noise-floor part whenever a
noise floor and a power are supplied: a noise floor of exactly 0 dB
(magnitude below 0.05) still appears in the remarks. -/
theorem c8_counterexample :
    RemarkField.noiseFloor 0
      ∈ remarkParts ⟨some 100, some (-50), some 0, some (-50), some 0, ""⟩ (some 0)
    ∧ ¬ ((1 : ℚ) / 20 ≤ |(0 : ℚ)|) := by
  constructor
  · with_unfolding_all decide
  · with_unfolding_all decide

/-- C8 (amended): in the remarks of an encoded alert, the calibration
offset appears iff `|cal_offset| ≥ 0.05`, the raw power iff it is
present together with a power and `|raw − power| ≥ 0.05`, and the ppm
correction iff `|ppm| ≥ 0.05` — so a detection with
`power_dbm_raw = power_dbm` and `cal_offset_db = 0` omits the "Raw:"
and "Cal offset:" fields while `cal_offset_db = 0.1` includes it — but
the noise floor and above-noise margin are *not* gated at 0.05: they
appear exactly when a noise floor and a power are supplied. -/
theorem c8_remarks_significance_gating (det : DetDict) (nf : Option ℚ) :
    (∀ x, RemarkField.calOffset x ∈ remarkParts det nf
        ↔ det.cal_offset_db = some x ∧ 1/20 ≤ |x|)
    ∧ (∀ x, RemarkField.raw x ∈ remarkParts det nf
        ↔ det.power_dbm_raw = some x
          ∧ ∃ p, det.power_dbm = some p ∧ 1/20 ≤ |x - p|)
    ∧ (∀ x, RemarkField.ppm x ∈ remarkParts det nf
        ↔ det.freq_ppm = some x ∧ 1/20 ≤ |x|)
    ∧ (∀ x, RemarkField.noiseFloor x ∈ remarkParts det nf
        ↔ nf = some x ∧ det.power_dbm.isSome = true)
    ∧ (∀ x, RemarkField.aboveNoise x ∈ remarkParts det nf
        ↔ ∃ v p, nf = some v ∧ det.power_dbm = some p ∧ x = p - v) := by
  refine ⟨fun x => ?_, fun x => ?_, fun x => ?_, fun x => ?_, fun x => ?_⟩ <;>
    rw [remarkParts] <;>
    simp only [List.mem_append, mem_freqPart, mem_powerPart, mem_calPart,
      mem_rawPart, mem_ppmPart, mem_noisePart, mem_bandPart] <;>
    simp [Option.isSome_iff_exists] <;> aesop
end HackRFWatchdog
